import Mathlib

/-!
Shallow embedding of the threshold EdDSA coordinator and party-agent code
(TypeScript sources: apps/eddsa-client/src/services/coordinator_service.ts,
apps/mpc-eddsa/src/services/mpc_service.ts, apps/mpc-eddsa/src/client/mpc_client.ts,
apps/mpc-eddsa/src/utils/validation.ts, apps/mpc-eddsa/src/utils/serialization.ts,
apps/mpc-eddsa/src/types/index.ts, apps/mpc-eddsa/src/errors/index.ts).

Byte buffers and byte arrays are both modelled as `List Nat`; the
representation-conversion helpers of serialization.ts (Buffer vs Array) are
therefore identities in the model, except for `normalizeMessage`, whose
string branch is modelled faithfully including the JavaScript falsiness of
the empty string in `message || 'default'`.  Calls into the Rust bindings
(`multi-party-eddsa-node`), which are not part of this repository, are
modelled as function parameters.  JavaScript `Array.prototype.sort` with the
`localeCompare` comparator is modelled as a stable insertion sort by the
string order; the default (comparator-free) `sort` on numbers is modelled as
a stable insertion sort by the decimal-string representation, which is the
ECMAScript default comparison.
-/

namespace TssEddsa

/-- Wrapper for a 32-byte scalar / point / hash, types/index.ts `SerializableBigInt`. -/
structure SerializableBigInt where
  bytes : List Nat
  deriving DecidableEq, Repr

/-- Output of DKG for one party, types/index.ts `SharedKey` (`prefix` is optional there). -/
structure SharedKey where
  y : SerializableBigInt
  xI : SerializableBigInt
  prefixBytes : Option SerializableBigInt
  deriving DecidableEq, Repr

/-- types/index.ts `EphemeralSharedKey`; at runtime the coordinator receives objects
that may carry the nonce point under `r` or under `R`, hence both are optional here
(the code guards with `firstKey.r || firstKey.R`). -/
structure EphemeralSharedKey where
  r : Option SerializableBigInt
  R : Option SerializableBigInt
  rI : Option SerializableBigInt
  deriving DecidableEq, Repr

/-- types/index.ts `LocalSignature`. -/
structure LocalSignature where
  gammaI : SerializableBigInt
  k : SerializableBigInt
  deriving DecidableEq, Repr

/-- types/index.ts `Signature`: `r` and `s` are required, `R` and `S` optional. -/
structure Signature where
  r : SerializableBigInt
  R : Option SerializableBigInt
  s : SerializableBigInt
  S : Option SerializableBigInt
  deriving DecidableEq, Repr

/-- types/index.ts `VSSScheme`; its payload is never inspected by the coordinator
code under verification, so it is kept as an uninterpreted record. -/
structure VSSScheme where
  shareCount : Option Nat
  commitments : List SerializableBigInt
  deriving DecidableEq, Repr

/-- Stand-in for the value the Rust binding `verifyLocalSigs` returns (named
`vssSum` in the coordinator); it is passed through unexamined. -/
structure VssSum where
  raw : List Nat
  deriving DecidableEq, Repr

/-- types/index.ts `Party`.  `partyIndex` is the SHA-256-derived index (unused after
the re-sort); `protocolIndex` is assigned by the coordinator. -/
structure Party where
  partyId : String
  publicKey : SerializableBigInt
  partyIndex : Nat
  protocolIndex : Option Nat
  deriving DecidableEq, Repr

/-- types/index.ts `KeyGenSession` (phase field is the constant string keygen). -/
structure KeyGenSession where
  threshold : Int
  totalParties : Int
  deriving DecidableEq, Repr

/-- A message argument as it can arrive at the TypeScript API:
a Buffer, a number array, or a string. -/
inductive JsMessage where
  | buf (bytes : List Nat)
  | arr (bytes : List Nat)
  | str (s : String)
  deriving DecidableEq, Repr

/-- types/index.ts `SigningSession` (phase field is the constant string signing). -/
structure SigningSession where
  message : List Nat
  signingParties : List String
  deriving DecidableEq, Repr

/-- Error taxonomy of errors/index.ts together with the distinct throw sites of the
validated code; each constructor corresponds to one `throw` in the source. -/
inductive MPCError where
  | thresholdTooSmall (t : Int)
  | thresholdTooLarge (t n : Int)
  | insufficientSigners (got : Nat) (t : Int)
  | tooManySigners (got : Nat) (n : Int)
  | sessionNotInitialized
  | keygenNotCompleted
  | partyLookupFailed (pid : String)
  | noSharedKeysProvided
  | requiredStateMissing
  | noEphemeralSharedKeys
  | aggregateRNotFound
  | serviceNotInitialized
  deriving DecidableEq, Repr

instance {ε α : Type} [DecidableEq ε] [DecidableEq α] : DecidableEq (Except ε α) :=
  fun a b =>
    match a, b with
    | .error e1, .error e2 =>
      if h : e1 = e2 then isTrue (by rw [h])
      else isFalse (fun hc => h (Except.error.inj hc))
    | .error _, .ok _ => isFalse (fun hc => Except.noConfusion hc)
    | .ok _, .error _ => isFalse (fun hc => Except.noConfusion hc)
    | .ok a1, .ok a2 =>
      if h : a1 = a2 then isTrue (by rw [h])
      else isFalse (fun hc => h (Except.ok.inj hc))

/-- serialization.ts `normalizeBytesToBuffer`: representation conversion only,
identity in the model. -/
def normalizeBytesToBuffer (x : SerializableBigInt) : SerializableBigInt := x

/-- serialization.ts `serializeForHttp`: representation conversion only,
identity in the model. -/
def serializeForHttp (x : SerializableBigInt) : SerializableBigInt := x

/-- serialization.ts `normalizeBytesForRust`: representation conversion only,
identity in the model. -/
def normalizeBytesForRust (x : SerializableBigInt) : SerializableBigInt := x

/-- Byte content of a string, as produced by `Buffer.from(string)`. -/
def stringBytes (s : String) : List Nat := s.data.map Char.toNat

/-- serialization.ts `normalizeMessage`.  For a Buffer or an Array the bytes are kept;
for a string the code evaluates `Buffer.from(message || 'default')`, and the empty
string is falsy in JavaScript, so it is replaced by the bytes of the string default. -/
def normalizeMessage : JsMessage → List Nat
  | .buf b => b
  | .arr a => a
  | .str s => if s = "" then stringBytes "default" else stringBytes s

/-- serialization.ts `messageToArray` applied to the stored Buffer: identity on bytes. -/
def messageToArray (m : List Nat) : List Nat := m

/-- Lexicographic order on strings by character sequence, the model of
`a.localeCompare(b) <= 0`. -/
def localeLe (a b : String) : Prop := a.data ≤ b.data

/-- The ECMAScript default SortCompare on numbers: compare the decimal string
representations lexicographically. -/
def jsNumberLe (a b : Nat) : Prop := (Nat.repr a).data ≤ (Nat.repr b).data

instance : DecidableRel localeLe := fun a b => inferInstanceAs (Decidable (a.data ≤ b.data))

instance : DecidableRel jsNumberLe :=
  fun a b => inferInstanceAs (Decidable ((Nat.repr a).data ≤ (Nat.repr b).data))

/-- Stable sort of the party list by `partyId` (coordinator_service.ts line 112,
`this.parties.sort((a, b) => a.partyId.localeCompare(b.partyId))`). -/
def sortPartiesById (l : List Party) : List Party :=
  l.insertionSort (fun a b => localeLe a.partyId b.partyId)

/-- JavaScript `signingParties.sort()` on strings: lexicographic stable sort. -/
def jsSortStrings (l : List String) : List String :=
  l.insertionSort localeLe

/-- JavaScript default `sort()` on a number array compares the decimal string
representations of the elements (ECMAScript SortCompare). -/
def jsSortNumbers (l : List Nat) : List Nat :=
  l.insertionSort jsNumberLe

/-- Stable sort of `(partyId, payload)` pairs by party id, the
`sort((a, b) => a.partyId.localeCompare(b.partyId))` pattern of the collectors. -/
def sortPairsById {α : Type} (l : List (String × α)) : List (String × α) :=
  l.insertionSort (fun a b => localeLe a.1 b.1)

/-- Whole private state of coordinator_service.ts `CoordinatorService`. -/
structure CoordinatorState where
  session : Option KeyGenSession
  parties : List Party
  commitments : List SerializableBigInt
  blindFactors : List SerializableBigInt
  allVssSchemes : List VSSScheme
  allSecretShares : List (List SerializableBigInt)
  sharedKeys : List SharedKey
  signingSession : Option SigningSession
  signingPartyIndices : Option (List Nat)
  ephRPoints : Option (List SerializableBigInt)
  ephCommitments : Option (List SerializableBigInt)
  ephBlindFactors : Option (List SerializableBigInt)
  allEphVssSchemes : Option (List VSSScheme)
  allEphSecretShares : Option (List (List SerializableBigInt))
  ephSharedKeys : Option (List EphemeralSharedKey)
  aggregatePublicKey : Option SerializableBigInt
  deriving DecidableEq, Repr

/-- State of a freshly constructed `CoordinatorService`. -/
def initialCoordinatorState : CoordinatorState :=
  { session := none, parties := [], commitments := [], blindFactors := []
    allVssSchemes := [], allSecretShares := [], sharedKeys := []
    signingSession := none, signingPartyIndices := none, ephRPoints := none
    ephCommitments := none, ephBlindFactors := none, allEphVssSchemes := none
    allEphSecretShares := none, ephSharedKeys := none, aggregatePublicKey := none }

/-- validation.ts `validateThreshold`. -/
def validateThreshold (threshold : Int) (totalParties : Option Int) :
    Except MPCError Unit :=
  if threshold < 2 then .error (.thresholdTooSmall threshold)
  else
    match totalParties with
    | some n => if threshold > n then .error (.thresholdTooLarge threshold n) else .ok ()
    | none => .ok ()

/-- validation.ts `validateSigningParties`. -/
def validateSigningParties (signingPartiesCount : Nat) (threshold : Int)
    (totalParties : Option Int) : Except MPCError Unit :=
  if (signingPartiesCount : Int) < threshold then
    .error (.insufficientSigners signingPartiesCount threshold)
  else
    match totalParties with
    | some n =>
      if (signingPartiesCount : Int) > n then .error (.tooManySigners signingPartiesCount n)
      else .ok ()
    | none => .ok ()

/-- coordinator_service.ts `registerParty` assigns protocol indices by list position
(`this.parties.forEach((p, idx) => p.protocolIndex = idx)`), starting at `i`. -/
def assignProtocolIndicesFrom (i : Nat) : List Party → List Party
  | [] => []
  | p :: ps => { p with protocolIndex := some i } :: assignProtocolIndicesFrom (i + 1) ps

/-- Protocol index assignment starting at position 0. -/
def assignProtocolIndices (l : List Party) : List Party :=
  assignProtocolIndicesFrom 0 l

/-- types/index.ts `PartyRegistrationResponse`. -/
structure PartyRegistrationResponse where
  partyIndex : Nat
  totalParties : Nat
  deriving DecidableEq, Repr

/-- types/index.ts `RegistrationResult` (hex string modelled by the raw bytes). -/
structure RegistrationResult where
  partyId : String
  publicKey : SerializableBigInt
  publicKeyHex : List Nat
  deriving DecidableEq, Repr

/-- Return value of coordinator_service.ts `startSigning`. -/
structure SigningStartResult where
  message : List Nat
  signingParties : List Nat
  deriving DecidableEq, Repr

/-- mpc_client.ts `aggregateKey` result record. -/
structure AggregateKeyResult where
  aggregatePublicKey : SerializableBigInt
  sharedKeys : List SharedKey
  deriving DecidableEq, Repr

/-- Return value of coordinator_service.ts `collectSharedKeys`
(hex string modelled by the raw bytes). -/
structure CollectSharedKeysResult where
  aggregatePublicKey : SerializableBigInt
  aggregatePublicKeyHex : List Nat
  sharedKeys : List SharedKey
  deriving DecidableEq, Repr

/-- types/index.ts `SignatureResult` (hex strings modelled by the raw bytes). -/
structure SignatureResult where
  sigR : SerializableBigInt
  sigS : SerializableBigInt
  signatureHex : List Nat
  aggregatePublicKey : SerializableBigInt
  aggregatePublicKeyHex : List Nat
  isValid : Bool
  deriving DecidableEq, Repr

namespace MPCClient

/-- mpc_client.ts `aggregateKey`: throws only on an empty list, otherwise returns
the `y` of the FIRST shared key as the aggregate, with no cross-party check. -/
def aggregateKey (sharedKeys : List SharedKey) : Except MPCError AggregateKeyResult :=
  match sharedKeys with
  | [] => .error .noSharedKeysProvided
  | k :: _ => .ok { aggregatePublicKey := k.y, sharedKeys := sharedKeys }

end MPCClient

namespace CoordinatorService

/-- coordinator_service.ts `startKeyGeneration`: validate the threshold, then
install a fresh keygen session and clear the six keygen collections. -/
def startKeyGeneration (st : CoordinatorState) (threshold totalParties : Int) :
    Except MPCError (CoordinatorState × KeyGenSession) :=
  match validateThreshold threshold (some totalParties) with
  | .error e => .error e
  | .ok _ =>
    let sess : KeyGenSession := { threshold := threshold, totalParties := totalParties }
    .ok ({ st with
            session := some sess, parties := [], commitments := [], blindFactors := []
            allVssSchemes := [], allSecretShares := [], sharedKeys := [] }, sess)

/-- coordinator_service.ts `registerParty`: push the new party, re-sort the whole
list by party id, reassign contiguous protocol indices, and return the index found
for the given id.  `hashIdx` stands for the SHA-256-based `_getPartyIndexFromId`
(not part of the sources under src, and unused after the re-sort). -/
def registerParty (hashIdx : String → Nat) (st : CoordinatorState)
    (partyId : String) (publicKey : SerializableBigInt) :
    Except MPCError (CoordinatorState × PartyRegistrationResponse) :=
  match st.session with
  | none => .error .sessionNotInitialized
  | some _ =>
    let normalizedPublicKey := normalizeBytesToBuffer publicKey
    let partyIndex := hashIdx partyId
    let pushed := st.parties ++
      [{ partyId := partyId, publicKey := normalizedPublicKey,
         partyIndex := partyIndex, protocolIndex := none }]
    let assigned := assignProtocolIndices (sortPartiesById pushed)
    match assigned.find? (fun p => p.partyId == partyId) with
    | none => .error (.partyLookupFailed partyId)
    | some p =>
      match p.protocolIndex with
      | none => .error (.partyLookupFailed partyId)
      | some i => .ok ({ st with parties := assigned }, ⟨i, assigned.length⟩)

/-- Lookup of one signing party id in `startSigning`
(`this.parties.find((p) => p.partyId === pid)` plus the protocolIndex guard). -/
def lookupProtocolIndex (parties : List Party) (pid : String) : Except MPCError Nat :=
  match parties.find? (fun p => p.partyId == pid) with
  | none => .error (.partyLookupFailed pid)
  | some p =>
    match p.protocolIndex with
    | none => .error (.partyLookupFailed pid)
    | some i => .ok i

/-- JavaScript `Array.prototype.map` under exceptions: stops at the first throw. -/
def mapExcept {α β : Type} (f : α → Except MPCError β) : List α → Except MPCError (List β)
  | [] => .ok []
  | a :: as =>
    match f a with
    | .error e => .error e
    | .ok b =>
      match mapExcept f as with
      | .error e => .error e
      | .ok bs => .ok (b :: bs)

/-- coordinator_service.ts `startSigning`.  `validateSigningParties` is invoked only
when the signer count is below the threshold.  `signingParties.sort()` mutates the
array in place, so the subsequent `.map` runs over the sorted ids; the resulting
index array is then sorted with the default comparator (decimal-string order). -/
def startSigning (st : CoordinatorState) (message : JsMessage)
    (signingParties : List String) :
    Except MPCError (CoordinatorState × SigningStartResult) :=
  match st.session with
  | none => .error .keygenNotCompleted
  | some sess =>
    let vres : Except MPCError Unit :=
      if (signingParties.length : Int) < sess.threshold then
        validateSigningParties signingParties.length sess.threshold (some sess.totalParties)
      else .ok ()
    match vres with
    | .error e => .error e
    | .ok _ =>
      let messageBuffer := normalizeMessage message
      let sortedIds := jsSortStrings signingParties
      let ss : SigningSession := { message := messageBuffer, signingParties := sortedIds }
      match mapExcept (lookupProtocolIndex st.parties) sortedIds with
      | .error e => .error e
      | .ok idxs =>
        let sortedIdxs := jsSortNumbers idxs
        .ok ({ st with signingSession := some ss, signingPartyIndices := some sortedIdxs },
             { message := messageBuffer, signingParties := sortedIdxs })

/-- coordinator_service.ts `collectSharedKeys`: sort the reports by party id,
normalize the byte payloads, aggregate via `MPCClient.aggregateKey` and store the
result; no consistency check between the reported `y` values is performed. -/
def collectSharedKeys (st : CoordinatorState)
    (partySharedKeys : List (String × SharedKey)) :
    Except MPCError (CoordinatorState × CollectSharedKeysResult) :=
  let sorted := sortPairsById partySharedKeys
  let sks := sorted.map (fun pr =>
    SharedKey.mk (normalizeBytesToBuffer pr.2.y) (normalizeBytesToBuffer pr.2.xI)
      (pr.2.prefixBytes.map normalizeBytesToBuffer))
  match MPCClient.aggregateKey sks with
  | .error e => .error e
  | .ok res =>
    .ok ({ st with sharedKeys := sks, aggregatePublicKey := some res.aggregatePublicKey },
         { aggregatePublicKey := serializeForHttp res.aggregatePublicKey
           aggregatePublicKeyHex := res.aggregatePublicKey.bytes
           sharedKeys := sks.map (fun sk =>
             SharedKey.mk (serializeForHttp sk.y) (serializeForHttp sk.xI)
               (sk.prefixBytes.map serializeForHttp)) })

/-- coordinator_service.ts `collectLocalSignatures`.  The Rust bindings
`verifyLocalSigs`, `generateSignature` and `verifySignature` are not part of this
repository and enter as function parameters.  On success the returned `isValid`
flag is the `verifySig` verdict on the aggregated signature, the stored signing
session message, and the stored aggregate public key. -/
def collectLocalSignatures
    (verifyLS : List LocalSignature → List Nat → List VSSScheme → List VSSScheme → VssSum)
    (aggSig : VssSum → List LocalSignature → List Nat → SerializableBigInt → Signature)
    (verifySig : Signature → List Nat → SerializableBigInt → Bool)
    (st : CoordinatorState) (partyLocalSigs : List (String × LocalSignature)) :
    Except MPCError SignatureResult :=
  let sorted := sortPairsById partyLocalSigs
  let localSigs := sorted.map (fun pr =>
    LocalSignature.mk (normalizeBytesForRust pr.2.gammaI) (normalizeBytesForRust pr.2.k))
  match st.signingPartyIndices, st.signingSession, st.allEphVssSchemes,
        st.ephSharedKeys, st.aggregatePublicKey with
  | some idxs, some ss, some ephVss, some ephKeys, some apk =>
    let vssSum := verifyLS localSigs idxs st.allVssSchemes ephVss
    match ephKeys with
    | [] => .error .noEphemeralSharedKeys
    | fk :: _ =>
      match (match fk.r with | some v => some v | none => fk.R) with
      | none => .error .aggregateRNotFound
      | some aggregateR =>
        let signature := aggSig vssSum localSigs idxs aggregateR
        let messageArray := messageToArray ss.message
        let apkArr : SerializableBigInt := { bytes := apk.bytes }
        let isValid := verifySig signature messageArray apkArr
        .ok { sigR := serializeForHttp signature.r
              sigS := serializeForHttp signature.s
              signatureHex := signature.r.bytes ++ signature.s.bytes
              aggregatePublicKey := serializeForHttp apk
              aggregatePublicKeyHex := apk.bytes
              isValid := isValid }
  | _, _, _, _, _ => .error .requiredStateMissing

end CoordinatorService

/-- Per-party state of mpc_service.ts `MPCService`. -/
structure MPCServiceState where
  partyId : String
  keyId : Option String
  sharedKey : Option SharedKey
  deriving DecidableEq, Repr

/-- types/index.ts `EphemeralKeyResult`. -/
structure EphemeralKeyResult where
  ephKeyId : String
  ephR : SerializableBigInt
  deriving DecidableEq, Repr

namespace MPCService

/-- mpc_service.ts `initialize`: unconditionally creates a fresh long-lived key via
`MPCClient.createPubKey` (a Rust binding, passed as `createPubKey`), overwriting any
previous `keyId`.  There is no already-registered check and no throw path. -/
def initService (createPubKey : Nat → String × SerializableBigInt)
    (hashIdx : String → Nat) (st : MPCServiceState) :
    Except MPCError (MPCServiceState × RegistrationResult) :=
  let kp := createPubKey (hashIdx st.partyId)
  .ok ({ st with keyId := some kp.1 },
       { partyId := st.partyId, publicKey := serializeForHttp kp.2,
         publicKeyHex := kp.2.bytes })

/-- mpc_service.ts `register`: exactly `return this.initialize()`. -/
def register (createPubKey : Nat → String × SerializableBigInt)
    (hashIdx : String → Nat) (st : MPCServiceState) :
    Except MPCError (MPCServiceState × RegistrationResult) :=
  initService createPubKey hashIdx st

/-- mpc_service.ts `createEphemeralKey`: requires an initialized service, normalizes
the message and hands its bytes to the Rust nonce-derivation entry point
(`thresholdSig.ephemeralKeyCreate`, passed as `ephemeralKeyCreate`). -/
def createEphemeralKey (ephemeralKeyCreate : String → List Nat → Nat → String × SerializableBigInt)
    (st : MPCServiceState) (message : JsMessage) (partyIndex : Nat) :
    Except MPCError EphemeralKeyResult :=
  match st.keyId with
  | none => .error .serviceNotInitialized
  | some kid =>
    let messageNormalized := normalizeMessage message
    let messageArray := messageNormalized
    let eph := ephemeralKeyCreate kid messageArray partyIndex
    .ok { ephKeyId := eph.1, ephR := eph.2 }

end MPCService

/-- Iterated registration: feed a list of `(partyId, publicKey)` registrations to
`CoordinatorService.registerParty`, stopping at the first failure. -/
def registerAll (hashIdx : String → Nat) :
    CoordinatorState → List (String × SerializableBigInt) → Except MPCError CoordinatorState
  | st, [] => .ok st
  | st, (pid, pk) :: rest =>
    match CoordinatorService.registerParty hashIdx st pid pk with
    | .error e => .error e
    | .ok (st', _) => registerAll hashIdx st' rest

/-- The index-free part of a `Party` record: everything `registerParty` preserves
across the re-sort and protocol-index reassignment. -/
structure PartyCore where
  partyId : String
  publicKey : SerializableBigInt
  partyIndex : Nat
  deriving DecidableEq, Repr

/-- Forget the protocol index of a party. -/
def Party.core (p : Party) : PartyCore := ⟨p.partyId, p.publicKey, p.partyIndex⟩

/-- Rebuild a party with a given protocol index. -/
def PartyCore.withIndex (c : PartyCore) (i : Nat) : Party :=
  ⟨c.partyId, c.publicKey, c.partyIndex, some i⟩

/-- Attach consecutive protocol indices (starting at `i`) to a list of cores. -/
def buildFrom (i : Nat) : List PartyCore → List Party
  | [] => []
  | c :: cs => c.withIndex i :: buildFrom (i + 1) cs

/-- Order on cores by party id, the comparator of the registration sort. -/
def coreLe (a b : PartyCore) : Prop := localeLe a.partyId b.partyId

/-- Strict order on cores by party id. -/
def coreLt (a b : PartyCore) : Prop := a.partyId.data < b.partyId.data

instance : DecidableRel coreLe :=
  fun a b => inferInstanceAs (Decidable (localeLe a.partyId b.partyId))

instance : IsTotal PartyCore coreLe :=
  ⟨fun a b => le_total a.partyId.data b.partyId.data⟩

instance : IsTrans PartyCore coreLe :=
  ⟨fun _ _ _ hab hbc => le_trans hab hbc⟩

instance : DecidableRel coreLt :=
  fun a b => inferInstanceAs (Decidable (a.partyId.data < b.partyId.data))

instance : IsAntisymm PartyCore coreLt :=
  ⟨fun _ _ h h2 => absurd h2 (lt_asymm h)⟩

/-- Stable sort of cores by party id. -/
def sortCores (l : List PartyCore) : List PartyCore := l.insertionSort coreLe

/-- The core recorded for one registration request. -/
def regCore (hashIdx : String → Nat) (pr : String × SerializableBigInt) : PartyCore :=
  ⟨pr.1, pr.2, hashIdx pr.1⟩

/-- Concrete coordinator state after `startKeyGeneration(2, 2)` on a fresh service. -/
def demoKeygenState : CoordinatorState :=
  { initialCoordinatorState with session := some ⟨2, 2⟩ }

/-- Concrete state after additionally registering party `a`. -/
def demoOnePartyState : CoordinatorState :=
  { demoKeygenState with parties := [⟨"a", ⟨[5]⟩, 0, some 0⟩] }

/-- Concrete state after registering party id `a` twice: the duplicate is accepted
and the list holds two entries for the same id. -/
def demoDupPartyState : CoordinatorState :=
  { demoKeygenState with
      parties := [⟨"a", ⟨[5]⟩, 0, some 0⟩, ⟨"a", ⟨[5]⟩, 0, some 1⟩] }

/-- Concrete state with a completed two-party keygen session, parties `a` and `b`. -/
def demoTwoPartyState : CoordinatorState :=
  { demoKeygenState with
      parties := [⟨"a", ⟨[1]⟩, 0, some 0⟩, ⟨"b", ⟨[2]⟩, 0, some 1⟩] }

/-- Concrete state with a three-party keygen session at threshold 2. -/
def demoThreeState : CoordinatorState :=
  { initialCoordinatorState with
      session := some ⟨2, 3⟩
      parties := [⟨"a", ⟨[1]⟩, 0, some 0⟩, ⟨"b", ⟨[2]⟩, 0, some 1⟩,
                  ⟨"c", ⟨[3]⟩, 0, some 2⟩] }

/-- Concrete Rust-binding stand-in for `verifyLocalSigs`. -/
def demoVerifyLS : List LocalSignature → List Nat → List VSSScheme → List VSSScheme → VssSum :=
  fun _ _ _ _ => ⟨[]⟩

/-- Concrete Rust-binding stand-in for `generateSignature`: echoes the aggregate
nonce point as `r` and a fixed scalar as `s`. -/
def demoAggSig : VssSum → List LocalSignature → List Nat → SerializableBigInt → Signature :=
  fun _ _ _ aggregateR => ⟨aggregateR, none, ⟨[8]⟩, none⟩

/-- Concrete Rust-binding stand-in for `verifySignature`. -/
def demoVerifySig : Signature → List Nat → SerializableBigInt → Bool :=
  fun _ _ _ => true

/-- Concrete coordinator state ready for `collectLocalSignatures`: the ephemeral
shared key carries the nonce point under `R` (as the construct step returns it). -/
def demoSigningState : CoordinatorState :=
  { initialCoordinatorState with
      signingPartyIndices := some [0, 1]
      signingSession := some ⟨[1], ["a", "b"]⟩
      allEphVssSchemes := some []
      ephSharedKeys := some [⟨none, some ⟨[9]⟩, none⟩]
      aggregatePublicKey := some ⟨[4]⟩ }

/-- Concrete local-signature report used with `demoSigningState`. -/
def demoLocalSigs : List (String × LocalSignature) := [("a", ⟨⟨[1]⟩, ⟨[2]⟩⟩)]

/-- The signature result `collectLocalSignatures` produces from `demoSigningState`
and `demoLocalSigs` with the demo Rust stand-ins. -/
def demoSignatureResult : SignatureResult := ⟨⟨[9]⟩, ⟨[8]⟩, [9, 8], ⟨[4]⟩, [4], true⟩

/-- Eleven registrations with ids p00 .. p10, in arrival order. -/
def elevenRegs : List (String × SerializableBigInt) :=
  [("p00", ⟨[0]⟩), ("p01", ⟨[1]⟩), ("p02", ⟨[2]⟩), ("p03", ⟨[3]⟩), ("p04", ⟨[4]⟩),
   ("p05", ⟨[5]⟩), ("p06", ⟨[6]⟩), ("p07", ⟨[7]⟩), ("p08", ⟨[8]⟩), ("p09", ⟨[9]⟩),
   ("p10", ⟨[10]⟩)]

/-- Fresh keygen session for eleven parties at threshold 2. -/
def elevenStart : CoordinatorState :=
  { initialCoordinatorState with session := some ⟨2, 11⟩ }

/-- Coordinator state after the eleven registrations: ids in lexicographic order
with protocol indices 0 .. 10. -/
def elevenRegistered : CoordinatorState :=
  { elevenStart with parties :=
    [⟨"p00", ⟨[0]⟩, 0, some 0⟩, ⟨"p01", ⟨[1]⟩, 0, some 1⟩, ⟨"p02", ⟨[2]⟩, 0, some 2⟩,
     ⟨"p03", ⟨[3]⟩, 0, some 3⟩, ⟨"p04", ⟨[4]⟩, 0, some 4⟩, ⟨"p05", ⟨[5]⟩, 0, some 5⟩,
     ⟨"p06", ⟨[6]⟩, 0, some 6⟩, ⟨"p07", ⟨[7]⟩, 0, some 7⟩, ⟨"p08", ⟨[8]⟩, 0, some 8⟩,
     ⟨"p09", ⟨[9]⟩, 0, some 9⟩, ⟨"p10", ⟨[10]⟩, 0, some 10⟩] }

/-- Coordinator state after starting a signing session with signers p02 and p10:
the stored index list is the string-sorted [10, 2], not the numeric [2, 10]. -/
def elevenSigning : CoordinatorState :=
  { elevenRegistered with
      signingSession := some ⟨[1], ["p02", "p10"]⟩
      signingPartyIndices := some [10, 2] }

/-! Helper lemmas about protocol-index assignment and registration. -/

theorem assignFrom_isSome (i : Nat) (l : List Party) :
    ∀ p ∈ assignProtocolIndicesFrom i l, p.protocolIndex.isSome := by
  induction l generalizing i with
  | nil => intro p hp; simp [assignProtocolIndicesFrom] at hp
  | cons q qs ih =>
    intro p hp
    simp only [assignProtocolIndicesFrom, List.mem_cons] at hp
    rcases hp with h | h
    · subst h; rfl
    · exact ih (i + 1) p h

theorem assignFrom_mem_partyId (i : Nat) (l : List Party) (x : Party) (hx : x ∈ l) :
    ∃ q ∈ assignProtocolIndicesFrom i l, q.partyId = x.partyId := by
  induction l generalizing i with
  | nil => simp at hx
  | cons q qs ih =>
    rcases List.mem_cons.mp hx with h | h
    · subst h
      exact ⟨{ x with protocolIndex := some i }, List.mem_cons_self _ _, rfl⟩
    · obtain ⟨q', hq', hid⟩ := ih (i + 1) h
      exact ⟨q', List.mem_cons_of_mem _ hq', hid⟩

theorem assignFrom_length (i : Nat) (l : List Party) :
    (assignProtocolIndicesFrom i l).length = l.length := by
  induction l generalizing i with
  | nil => rfl
  | cons q qs ih => simp [assignProtocolIndicesFrom, ih]

theorem registerParty_ok (hashIdx : String → Nat) (st : CoordinatorState)
    (pid : String) (pk : SerializableBigInt) (sess : KeyGenSession)
    (hs : st.session = some sess) :
    ∃ i, CoordinatorService.registerParty hashIdx st pid pk =
      .ok ({ st with parties := assignProtocolIndices (sortPartiesById (st.parties ++
              [⟨pid, pk, hashIdx pid, none⟩])) },
           ⟨i, (assignProtocolIndices (sortPartiesById (st.parties ++
              [⟨pid, pk, hashIdx pid, none⟩]))).length⟩) := by
  unfold CoordinatorService.registerParty
  rw [hs]
  simp only [normalizeBytesToBuffer]
  have hx : (⟨pid, pk, hashIdx pid, none⟩ : Party) ∈
      sortPartiesById (st.parties ++ [⟨pid, pk, hashIdx pid, none⟩]) := by
    unfold sortPartiesById
    exact (List.perm_insertionSort _ _).mem_iff.mpr (by simp)
  obtain ⟨q, hqmem, hqid⟩ := assignFrom_mem_partyId 0 _ _ hx
  have hfind : ((assignProtocolIndices (sortPartiesById (st.parties ++
      [⟨pid, pk, hashIdx pid, none⟩]))).find? (fun p => p.partyId == pid)).isSome := by
    rw [List.find?_isSome]
    exact ⟨q, hqmem, by simp [hqid]⟩
  obtain ⟨q', hq'⟩ := Option.isSome_iff_exists.mp hfind
  have hq'mem := List.mem_of_find?_eq_some hq'
  obtain ⟨i, hi⟩ := Option.isSome_iff_exists.mp
    (assignFrom_isSome 0 _ q' hq'mem)
  refine ⟨i, ?_⟩
  unfold assignProtocolIndices at hq' ⊢
  rw [hq']
  dsimp only
  rw [hi]

/-! C3 -/

/-- C3 counterexample: in a live keygen session, registering the already-registered
party id a succeeds instead of failing, and the registered-party list grows from
one entry to two entries for the same id. -/
theorem registerParty_duplicate_not_rejected :
    CoordinatorService.startKeyGeneration initialCoordinatorState 2 2 =
      .ok (demoKeygenState, ⟨2, 2⟩) ∧
    CoordinatorService.registerParty (fun _ => 0) demoKeygenState "a" ⟨[5]⟩ =
      .ok (demoOnePartyState, ⟨0, 1⟩) ∧
    CoordinatorService.registerParty (fun _ => 0) demoOnePartyState "a" ⟨[5]⟩ =
      .ok (demoDupPartyState, ⟨0, 2⟩) ∧
    demoDupPartyState.parties.length = 2 := by decide

/-- C3 amended: in a session, `registerParty` never rejects a duplicate party id:
every call with an initialized session succeeds and appends one entry to the
registered-party list, even when the id is already registered. -/
theorem registerParty_accepts_duplicates (hashIdx : String → Nat)
    (st : CoordinatorState) (pid : String) (pk : SerializableBigInt)
    (sess : KeyGenSession) (hs : st.session = some sess) :
    ∃ st' resp, CoordinatorService.registerParty hashIdx st pid pk = .ok (st', resp) ∧
      st'.parties.length = st.parties.length + 1 := by
  obtain ⟨i, h⟩ := registerParty_ok hashIdx st pid pk sess hs
  refine ⟨_, _, h, ?_⟩
  simp [assignProtocolIndices, assignFrom_length, sortPartiesById,
    List.length_insertionSort]

/-- C3 amended witness at a concrete duplicate registration. -/
theorem registerParty_accepts_duplicates_witness :
    ∃ st' resp,
      CoordinatorService.registerParty (fun _ => 0) demoOnePartyState "a" ⟨[5]⟩ =
        .ok (st', resp) ∧ st'.parties.length = demoOnePartyState.parties.length + 1 :=
  registerParty_accepts_duplicates (fun _ => 0) demoOnePartyState "a" ⟨[5]⟩ ⟨2, 2⟩ rfl

/-! C4 -/

/-- C4 counterexample: a party agent that already holds a long-lived key (keyId is
set) can call register again; the call succeeds and silently replaces the key
instead of raising an already-registered error. -/
theorem register_overwrites_existing_key :
    (MPCServiceState.mk "p" (some "oldkey") none).keyId.isSome = true ∧
    MPCService.register (fun _ => ("newkey", ⟨[7]⟩)) (fun _ => 0)
        ⟨"p", some "oldkey", none⟩ =
      .ok (⟨"p", some "newkey", none⟩, ⟨"p", ⟨[7]⟩, [7]⟩) := by decide

/-- C4 amended: `register` never raises an error in any state; it always creates a
fresh long-lived key and overwrites any previously stored one. -/
theorem register_never_fails (createPubKey : Nat → String × SerializableBigInt)
    (hashIdx : String → Nat) (st : MPCServiceState) :
    MPCService.register createPubKey hashIdx st =
      .ok ({ st with keyId := some (createPubKey (hashIdx st.partyId)).1 },
           ⟨st.partyId, serializeForHttp (createPubKey (hashIdx st.partyId)).2,
            (createPubKey (hashIdx st.partyId)).2.bytes⟩) := rfl

/-! C1 -/

/-- C1 counterexample: two parties report shared keys with different joint public
key values (bytes [1] versus [2]); `collectSharedKeys` does not fail with an
inconsistency error but succeeds and returns the first y as the aggregate. -/
theorem collectSharedKeys_accepts_mismatched_y :
    CoordinatorService.collectSharedKeys initialCoordinatorState
        [("a", ⟨⟨[1]⟩, ⟨[10]⟩, none⟩), ("b", ⟨⟨[2]⟩, ⟨[20]⟩, none⟩)] =
      .ok ({ initialCoordinatorState with
               sharedKeys := [⟨⟨[1]⟩, ⟨[10]⟩, none⟩, ⟨⟨[2]⟩, ⟨[20]⟩, none⟩]
               aggregatePublicKey := some ⟨[1]⟩ },
           ⟨⟨[1]⟩, [1], [⟨⟨[1]⟩, ⟨[10]⟩, none⟩, ⟨⟨[2]⟩, ⟨[20]⟩, none⟩]⟩) ∧
    (⟨[1]⟩ : SerializableBigInt) ≠ ⟨[2]⟩ := by decide

/-- C1 amended: `collectSharedKeys` performs no cross-party consistency check on
the reported y values: it fails only when no shared keys are provided, and
otherwise returns the y of the first party (in party-id order) as the aggregate;
in particular, when all parties report the same Y the returned aggregate public
key is that common Y. -/
theorem collectSharedKeys_first_y (st : CoordinatorState)
    (l : List (String × SharedKey)) :
    (l = [] → CoordinatorService.collectSharedKeys st l =
      .error .noSharedKeysProvided) ∧
    (∀ Y : SerializableBigInt, (∀ pr ∈ l, pr.2.y = Y) → l ≠ [] →
      ∃ st' res, CoordinatorService.collectSharedKeys st l = .ok (st', res) ∧
        res.aggregatePublicKey = Y ∧ st'.aggregatePublicKey = some Y) := by
  constructor
  · intro h; subst h; rfl
  · intro Y hall hne
    unfold CoordinatorService.collectSharedKeys
    have hperm : (sortPairsById l).Perm l := List.perm_insertionSort _ l
    cases hsorted : sortPairsById l with
    | nil =>
      rw [hsorted] at hperm
      exact absurd hperm.symm.eq_nil hne
    | cons hd tl =>
      have hhd : hd ∈ l := hperm.mem_iff.mp (hsorted ▸ List.mem_cons_self hd tl)
      have hy : hd.2.y = Y := hall hd hhd
      dsimp only
      simp only [List.map_cons, MPCClient.aggregateKey, normalizeBytesToBuffer,
        serializeForHttp]
      exact ⟨_, _, rfl, hy, by rw [hy]⟩

/-- C1 amended witness: two parties report the same Y (bytes [3]); the aggregate
equals that common Y, and the empty input fails. -/
theorem collectSharedKeys_first_y_witness :
    (([] : List (String × SharedKey)) = [] →
      CoordinatorService.collectSharedKeys initialCoordinatorState [] =
        .error .noSharedKeysProvided) ∧
    (∃ st' res, CoordinatorService.collectSharedKeys initialCoordinatorState
        [("a", ⟨⟨[3]⟩, ⟨[10]⟩, none⟩), ("b", ⟨⟨[3]⟩, ⟨[20]⟩, none⟩)] = .ok (st', res) ∧
      res.aggregatePublicKey = ⟨[3]⟩ ∧ st'.aggregatePublicKey = some ⟨[3]⟩) :=
  ⟨(collectSharedKeys_first_y initialCoordinatorState []).1,
   (collectSharedKeys_first_y initialCoordinatorState
      [("a", ⟨⟨[3]⟩, ⟨[10]⟩, none⟩), ("b", ⟨⟨[3]⟩, ⟨[20]⟩, none⟩)]).2 ⟨[3]⟩
      (by decide) (by decide)⟩

/-! C7 -/

/-- C7: `startKeyGeneration` throws a validation error exactly when the threshold
is below 2 or above the party count; otherwise it succeeds, installs the session,
and clears all prior keygen state (parties, commitments, blind factors, VSS
schemes, secret shares, shared keys). -/
theorem startKeyGeneration_validates_and_clears (st : CoordinatorState) (t n : Int) :
    ((∃ out, CoordinatorService.startKeyGeneration st t n = .ok out) ↔
      2 ≤ t ∧ t ≤ n) ∧
    (∀ st' sess, CoordinatorService.startKeyGeneration st t n = .ok (st', sess) →
      sess = ⟨t, n⟩ ∧ st'.session = some ⟨t, n⟩ ∧ st'.parties = [] ∧
      st'.commitments = [] ∧ st'.blindFactors = [] ∧ st'.allVssSchemes = [] ∧
      st'.allSecretShares = [] ∧ st'.sharedKeys = []) := by
  unfold CoordinatorService.startKeyGeneration validateThreshold
  by_cases h2 : t < 2
  · simp only [if_pos h2]
    constructor
    · constructor
      · rintro ⟨out, hout⟩; exact absurd hout (by simp)
      · intro h; omega
    · intro st' sess h; exact absurd h (by simp)
  · by_cases h3 : t > n
    · simp only [if_neg h2, if_pos h3]
      constructor
      · constructor
        · rintro ⟨out, hout⟩; exact absurd hout (by simp)
        · intro h; omega
      · intro st' sess h; exact absurd h (by simp)
    · simp only [if_neg h2, if_neg h3]
      constructor
      · constructor
        · intro _; omega
        · intro _; exact ⟨_, rfl⟩
      · intro st' sess h
        injection h with h
        injection h with h1 h2
        subst h1; subst h2
        exact ⟨rfl, rfl, rfl, rfl, rfl, rfl, rfl, rfl⟩

/-! Helper lemmas for startSigning. -/

theorem mapExcept_ok_of_all {α β : Type} (f : α → Except MPCError β) (l : List α)
    (h : ∀ a ∈ l, ∃ b, f a = .ok b) :
    ∃ bs, CoordinatorService.mapExcept f l = .ok bs := by
  induction l with
  | nil => exact ⟨[], rfl⟩
  | cons a as ih =>
    obtain ⟨b, hb⟩ := h a (List.mem_cons_self a as)
    obtain ⟨bs, hbs⟩ := ih (fun x hx => h x (List.mem_cons_of_mem a hx))
    refine ⟨b :: bs, ?_⟩
    unfold CoordinatorService.mapExcept
    rw [hb, hbs]

theorem mapExcept_error_mem {α β : Type} (f : α → Except MPCError β) (l : List α)
    (e : MPCError) (h : CoordinatorService.mapExcept f l = .error e) :
    ∃ a ∈ l, f a = .error e := by
  induction l with
  | nil => exact absurd h (by simp [CoordinatorService.mapExcept])
  | cons a as ih =>
    unfold CoordinatorService.mapExcept at h
    split at h
    · cases Except.error.inj h
      exact ⟨a, List.mem_cons_self a as, by assumption⟩
    · split at h
      · cases Except.error.inj h
        obtain ⟨x, hx, hfx⟩ := ih (by assumption)
        exact ⟨x, List.mem_cons_of_mem a hx, hfx⟩
      · exact absurd h (by simp)

theorem lookupProtocolIndex_ok (parties : List Party) (pid : String)
    (hmem : ∃ p ∈ parties, p.partyId = pid)
    (hidx : ∀ p ∈ parties, p.protocolIndex.isSome) :
    ∃ i, CoordinatorService.lookupProtocolIndex parties pid = .ok i := by
  obtain ⟨p, hp, hpid⟩ := hmem
  have hfind : (parties.find? (fun q => q.partyId == pid)).isSome := by
    rw [List.find?_isSome]; exact ⟨p, hp, by simp [hpid]⟩
  obtain ⟨q, hq⟩ := Option.isSome_iff_exists.mp hfind
  obtain ⟨i, hi⟩ := Option.isSome_iff_exists.mp (hidx q (List.mem_of_find?_eq_some hq))
  refine ⟨i, ?_⟩
  unfold CoordinatorService.lookupProtocolIndex
  rw [hq]
  dsimp only
  rw [hi]

theorem lookupProtocolIndex_error_shape (parties : List Party) (pid : String)
    (e : MPCError) (h : CoordinatorService.lookupProtocolIndex parties pid = .error e) :
    e = .partyLookupFailed pid := by
  unfold CoordinatorService.lookupProtocolIndex at h
  split at h
  · exact (Except.error.inj h).symm
  · split at h
    · exact (Except.error.inj h).symm
    · exact absurd h (by simp)

theorem startSigning_ok_of_enough (st : CoordinatorState) (sess : KeyGenSession)
    (m : JsMessage) (ids : List String) (hs : st.session = some sess)
    (hge : sess.threshold ≤ (ids.length : Int))
    (hreg : ∀ pid ∈ ids, ∃ p ∈ st.parties, p.partyId = pid)
    (hidx : ∀ p ∈ st.parties, p.protocolIndex.isSome) :
    ∃ out, CoordinatorService.startSigning st m ids = .ok out := by
  obtain ⟨idxs, hmap⟩ := mapExcept_ok_of_all
    (CoordinatorService.lookupProtocolIndex st.parties) (jsSortStrings ids)
    (fun pid hpid => by
      have hmem : pid ∈ ids := by
        unfold jsSortStrings at hpid
        exact (List.perm_insertionSort _ ids).mem_iff.mp hpid
      exact lookupProtocolIndex_ok st.parties pid (hreg pid hmem) hidx)
  unfold CoordinatorService.startSigning
  rw [hs]
  dsimp only
  rw [if_neg (not_lt.mpr hge)]
  dsimp only
  rw [hmap]
  exact ⟨_, rfl⟩

theorem startSigning_err_of_insufficient (st : CoordinatorState) (sess : KeyGenSession)
    (m : JsMessage) (ids : List String) (hs : st.session = some sess)
    (hlt : (ids.length : Int) < sess.threshold) :
    CoordinatorService.startSigning st m ids =
      .error (.insufficientSigners ids.length sess.threshold) := by
  unfold CoordinatorService.startSigning
  rw [hs]
  dsimp only
  rw [if_pos hlt]
  unfold validateSigningParties
  rw [if_pos hlt]

/-! C8 -/

/-- C8: with an active session of threshold t, `startSigning` with fewer than t
signing ids throws the insufficient-signers error, and with at least t ids, all of
them registered, it succeeds. -/
theorem startSigning_threshold_behavior (st : CoordinatorState) (sess : KeyGenSession)
    (m : JsMessage) (ids : List String) (hs : st.session = some sess) :
    ((ids.length : Int) < sess.threshold →
      CoordinatorService.startSigning st m ids =
        .error (.insufficientSigners ids.length sess.threshold)) ∧
    (sess.threshold ≤ (ids.length : Int) →
      (∀ pid ∈ ids, ∃ p ∈ st.parties, p.partyId = pid) →
      (∀ p ∈ st.parties, p.protocolIndex.isSome) →
      ∃ out, CoordinatorService.startSigning st m ids = .ok out) :=
  ⟨fun hlt => startSigning_err_of_insufficient st sess m ids hs hlt,
   fun hge hreg hidx => startSigning_ok_of_enough st sess m ids hs hge hreg hidx⟩

/-- C8 witness: n = 3, t = 2; a single signer fails with the insufficient-signers
error, and two registered signers succeed. -/
theorem startSigning_threshold_behavior_witness :
    CoordinatorService.startSigning demoThreeState (.buf [1]) ["a"] =
      .error (.insufficientSigners 1 2) ∧
    (∃ out, CoordinatorService.startSigning demoThreeState (.buf [1]) ["a", "b"] =
      .ok out) :=
  ⟨(startSigning_threshold_behavior demoThreeState ⟨2, 3⟩ (.buf [1]) ["a"] rfl).1
      (by decide),
   (startSigning_threshold_behavior demoThreeState ⟨2, 3⟩ (.buf [1]) ["a", "b"] rfl).2
      (by decide) (by decide) (by decide)⟩

/-! C10 -/

/-- C10: `startSigning` can never raise the more-signing-parties-than-total error:
the second branch of `validateSigningParties` is unreachable from `startSigning`,
and any call with at least threshold many registered signer ids succeeds even when
the id list is longer than totalParties or contains repeats. -/
theorem startSigning_tooMany_unreachable (st : CoordinatorState) (m : JsMessage)
    (ids : List String) :
    (∀ c n, CoordinatorService.startSigning st m ids ≠ .error (.tooManySigners c n)) ∧
    (∀ sess, st.session = some sess → sess.threshold ≤ (ids.length : Int) →
      (∀ pid ∈ ids, ∃ p ∈ st.parties, p.partyId = pid) →
      (∀ p ∈ st.parties, p.protocolIndex.isSome) →
      ∃ out, CoordinatorService.startSigning st m ids = .ok out) := by
  constructor
  · intro c n hcontra
    unfold CoordinatorService.startSigning at hcontra
    cases hsess : st.session with
    | none => rw [hsess] at hcontra; exact absurd hcontra (by simp)
    | some sess =>
      rw [hsess] at hcontra
      dsimp only at hcontra
      by_cases hlt : (ids.length : Int) < sess.threshold
      · rw [if_pos hlt] at hcontra
        unfold validateSigningParties at hcontra
        rw [if_pos hlt] at hcontra
        exact absurd hcontra (by simp)
      · rw [if_neg hlt] at hcontra
        dsimp only at hcontra
        cases hmap : CoordinatorService.mapExcept
            (CoordinatorService.lookupProtocolIndex st.parties) (jsSortStrings ids) with
        | error e =>
          rw [hmap] at hcontra
          dsimp only at hcontra
          obtain ⟨pid2, _, hfe⟩ := mapExcept_error_mem _ _ _ hmap
          have hshape := lookupProtocolIndex_error_shape st.parties pid2 e hfe
          rw [hshape] at hcontra
          exact absurd (Except.error.inj hcontra) (by simp)
        | ok idxs =>
          rw [hmap] at hcontra
          exact absurd hcontra (by simp)
  · intro sess hs hge hreg hidx
    exact startSigning_ok_of_enough st sess m ids hs hge hreg hidx

/-- C10 witness: with three parties at threshold 2, four signer ids containing a
repeat (more ids than total parties) still succeed, and a single-signer call does
not raise the too-many-signers error. -/
theorem startSigning_tooMany_unreachable_witness :
    (CoordinatorService.startSigning demoThreeState (.buf [1]) ["a"] ≠
      .error (.tooManySigners 1 3)) ∧
    (∃ out, CoordinatorService.startSigning demoThreeState (.buf [1])
      ["a", "a", "b", "c"] = .ok out) :=
  ⟨(startSigning_tooMany_unreachable demoThreeState (.buf [1]) ["a"]).1 1 3,
   (startSigning_tooMany_unreachable demoThreeState (.buf [1])
      ["a", "a", "b", "c"]).2 ⟨2, 3⟩ rfl (by decide) (by decide) (by decide)⟩

/-! C6 -/

/-- C6 counterexample: starting a signing session with the empty STRING message
stores the bytes of the string default, not the empty byte sequence. -/
theorem startSigning_empty_string_not_empty :
    CoordinatorService.startSigning demoTwoPartyState (.str "") ["a", "b"] =
      .ok ({ demoTwoPartyState with
               signingSession := some ⟨stringBytes "default", ["a", "b"]⟩
               signingPartyIndices := some [0, 1] },
           ⟨stringBytes "default", [0, 1]⟩) ∧
    stringBytes "default" ≠ ([] : List Nat) := by decide

/-- C6 amended: an empty Buffer and an empty number array are stored and fed to
nonce derivation as the empty byte sequence, but an empty string is normalized to
the bytes of the string default; in general the stored signing-session message and
the bytes handed to the ephemeral-key creation call are `normalizeMessage` of the
input. -/
theorem normalizeMessage_empty_cases :
    normalizeMessage (.buf []) = [] ∧ normalizeMessage (.arr []) = [] ∧
    normalizeMessage (.str "") = stringBytes "default" ∧
    (∀ st m ids st' res, CoordinatorService.startSigning st m ids = .ok (st', res) →
      st'.signingSession = some ⟨normalizeMessage m, jsSortStrings ids⟩ ∧
      res.message = normalizeMessage m) ∧
    (∀ ephemeralKeyCreate st kid m i, st.keyId = some kid →
      MPCService.createEphemeralKey ephemeralKeyCreate st m i =
        .ok ⟨(ephemeralKeyCreate kid (normalizeMessage m) i).1,
             (ephemeralKeyCreate kid (normalizeMessage m) i).2⟩) := by
  refine ⟨rfl, rfl, by decide, ?_, ?_⟩
  · intro st m ids st' res h
    unfold CoordinatorService.startSigning at h
    cases hsess : st.session with
    | none => rw [hsess] at h; exact absurd h (by simp)
    | some sess =>
      rw [hsess] at h
      dsimp only at h
      by_cases hlt : (ids.length : Int) < sess.threshold
      · rw [if_pos hlt] at h
        unfold validateSigningParties at h
        rw [if_pos hlt] at h
        exact absurd h (by simp)
      · rw [if_neg hlt] at h
        dsimp only at h
        cases hmap : CoordinatorService.mapExcept
            (CoordinatorService.lookupProtocolIndex st.parties) (jsSortStrings ids) with
        | error e => rw [hmap] at h; exact absurd h (by simp)
        | ok idxs =>
          rw [hmap] at h
          dsimp only at h
          rw [Except.ok.injEq, Prod.mk.injEq] at h
          obtain ⟨h1, h2⟩ := h
          subst h1; subst h2
          exact ⟨rfl, rfl⟩
  · intro ephemeralKeyCreate st kid m i h
    unfold MPCService.createEphemeralKey
    rw [h]

/-- C6 amended witness: a concrete Buffer message flows unchanged into the stored
session and into the nonce-derivation call. -/
theorem normalizeMessage_empty_cases_witness :
    ({ demoTwoPartyState with
         signingSession := some ⟨[7], ["a", "b"]⟩
         signingPartyIndices := some [0, 1] } : CoordinatorState).signingSession =
      some ⟨normalizeMessage (.buf [7]), jsSortStrings ["b", "a"]⟩ ∧
    MPCService.createEphemeralKey (fun k m i => (k, ⟨m ++ [i]⟩))
        ⟨"p", some "kid", none⟩ (.buf []) 3 =
      .ok ⟨("kid", SerializableBigInt.mk (([] : List Nat) ++ [3])).1,
           ("kid", SerializableBigInt.mk (([] : List Nat) ++ [3])).2⟩ :=
  ⟨(normalizeMessage_empty_cases.2.2.2.1 demoTwoPartyState (.buf [7]) ["b", "a"]
      { demoTwoPartyState with
          signingSession := some ⟨[7], ["a", "b"]⟩
          signingPartyIndices := some [0, 1] }
      ⟨[7], [0, 1]⟩ (by decide)).1,
   normalizeMessage_empty_cases.2.2.2.2 (fun k m i => (k, ⟨m ++ [i]⟩))
      ⟨"p", some "kid", none⟩ "kid" (.buf []) 3 rfl⟩

/-- C7 witness: the boundary pair threshold 2 of 2 succeeds and clears state, and
the invalid pairs (1, 3) and (3, 2) fail. -/
theorem startKeyGeneration_validates_witness :
    (∃ out, CoordinatorService.startKeyGeneration demoSigningState 2 2 = .ok out) ∧
    ¬ (∃ out, CoordinatorService.startKeyGeneration demoSigningState 1 3 = .ok out) ∧
    ¬ (∃ out, CoordinatorService.startKeyGeneration demoSigningState 3 2 = .ok out) :=
  ⟨(startKeyGeneration_validates_and_clears demoSigningState 2 2).1.mpr (by decide),
   fun h => by
    have := (startKeyGeneration_validates_and_clears demoSigningState 1 3).1.mp h
    omega,
   fun h => by
    have := (startKeyGeneration_validates_and_clears demoSigningState 3 2).1.mp h
    omega⟩

/-! C5 -/

/-- C5: every successful `collectLocalSignatures` call returns an `isValid` flag
that equals the Ed25519 verification verdict (the `verifySignature` binding) on the
aggregated signature, the signing-session stored message, and the stored aggregate
public key, and returns that signature alongside the flag. -/
theorem collectLocalSignatures_verifies
    (verifyLS : List LocalSignature → List Nat → List VSSScheme → List VSSScheme → VssSum)
    (aggSig : VssSum → List LocalSignature → List Nat → SerializableBigInt → Signature)
    (verifySig : Signature → List Nat → SerializableBigInt → Bool)
    (st : CoordinatorState) (input : List (String × LocalSignature))
    (res : SignatureResult)
    (h : CoordinatorService.collectLocalSignatures verifyLS aggSig verifySig st input =
      .ok res) :
    ∃ idxs ss ephVss fk rest apk aggregateR,
      st.signingPartyIndices = some idxs ∧ st.signingSession = some ss ∧
      st.allEphVssSchemes = some ephVss ∧ st.ephSharedKeys = some (fk :: rest) ∧
      st.aggregatePublicKey = some apk ∧
      (match fk.r with | some v => some v | none => fk.R) = some aggregateR ∧
      (let sigs := (sortPairsById input).map (fun pr =>
          LocalSignature.mk (normalizeBytesForRust pr.2.gammaI)
            (normalizeBytesForRust pr.2.k));
       let signature := aggSig (verifyLS sigs idxs st.allVssSchemes ephVss) sigs idxs
          aggregateR;
       res.isValid = verifySig signature (messageToArray ss.message) ⟨apk.bytes⟩ ∧
       res.sigR = serializeForHttp signature.r ∧
       res.sigS = serializeForHttp signature.s) := by
  unfold CoordinatorService.collectLocalSignatures at h
  cases hidx : st.signingPartyIndices with
  | none => rw [hidx] at h; exact absurd h (by simp)
  | some idxs =>
  rw [hidx] at h
  cases hss : st.signingSession with
  | none => rw [hss] at h; exact absurd h (by simp)
  | some ss =>
  rw [hss] at h
  cases hev : st.allEphVssSchemes with
  | none => rw [hev] at h; exact absurd h (by simp)
  | some ephVss =>
  rw [hev] at h
  cases hek : st.ephSharedKeys with
  | none => rw [hek] at h; exact absurd h (by simp)
  | some ephKeys =>
  rw [hek] at h
  cases hapk : st.aggregatePublicKey with
  | none => rw [hapk] at h; exact absurd h (by simp)
  | some apk =>
  rw [hapk] at h
  dsimp only at h
  cases ephKeys with
  | nil => exact absurd h (by simp)
  | cons fk rest =>
  dsimp only at h
  cases hrr : (match fk.r with | some v => some v | none => fk.R) with
  | none => rw [hrr] at h; exact absurd h (by simp)
  | some aggregateR =>
  rw [hrr] at h
  dsimp only at h
  rw [Except.ok.injEq] at h
  subst h
  exact ⟨idxs, ss, ephVss, fk, rest, apk, aggregateR, rfl, rfl, rfl, rfl, rfl, hrr,
    rfl, rfl, rfl⟩

/-- C5 witness: a concrete successful aggregation returns the flag computed by the
verification stand-in on the stored message and aggregate key. -/
theorem collectLocalSignatures_verifies_witness :
    ∃ idxs ss ephVss fk rest apk aggregateR,
      demoSigningState.signingPartyIndices = some idxs ∧
      demoSigningState.signingSession = some ss ∧
      demoSigningState.allEphVssSchemes = some ephVss ∧
      demoSigningState.ephSharedKeys = some (fk :: rest) ∧
      demoSigningState.aggregatePublicKey = some apk ∧
      (match fk.r with | some v => some v | none => fk.R) = some aggregateR ∧
      (let sigs := (sortPairsById demoLocalSigs).map (fun pr =>
          LocalSignature.mk (normalizeBytesForRust pr.2.gammaI)
            (normalizeBytesForRust pr.2.k));
       let signature := demoAggSig
          (demoVerifyLS sigs idxs demoSigningState.allVssSchemes ephVss) sigs idxs
          aggregateR;
       demoSignatureResult.isValid =
          demoVerifySig signature (messageToArray ss.message) ⟨apk.bytes⟩ ∧
       demoSignatureResult.sigR = serializeForHttp signature.r ∧
       demoSignatureResult.sigS = serializeForHttp signature.s) :=
  collectLocalSignatures_verifies demoVerifyLS demoAggSig demoVerifySig
    demoSigningState demoLocalSigs demoSignatureResult (by decide)

/-! C2 -/

/-- C2 evaluation at the failing input: after registering eleven parties p00 .. p10
and starting a signing session for p02 and p10, the returned signing subset is
[10, 2] (the JavaScript default sort compares decimal strings), which is not in
ascending numeric order. -/
theorem startSigning_string_sorted_indices :
    registerAll (fun _ => 0) elevenStart elevenRegs = .ok elevenRegistered ∧
    CoordinatorService.startSigning elevenRegistered (.buf [1]) ["p02", "p10"] =
      .ok (elevenSigning, ⟨[1], [10, 2]⟩) ∧
    ¬ List.Sorted (fun a b : Nat => a ≤ b) [10, 2] := by decide

/-! C9 helper development: the registration fold keeps the party list sorted by
party id, with protocol indices equal to list positions, and the multiset of
stored parties equal to the multiset of processed registrations. -/

theorem buildFrom_map_core (i : Nat) (cs : List PartyCore) :
    (buildFrom i cs).map Party.core = cs := by
  induction cs generalizing i with
  | nil => rfl
  | cons c cs ih => simp [buildFrom, PartyCore.withIndex, Party.core, ih]

theorem buildFrom_map_partyId (i : Nat) (cs : List PartyCore) :
    (buildFrom i cs).map Party.partyId = cs.map PartyCore.partyId := by
  induction cs generalizing i with
  | nil => rfl
  | cons c cs ih => simp [buildFrom, PartyCore.withIndex, ih]

theorem assignFrom_eq_buildFrom (i : Nat) (l : List Party) :
    assignProtocolIndicesFrom i l = buildFrom i (l.map Party.core) := by
  induction l generalizing i with
  | nil => rfl
  | cons p ps ih =>
    simp [assignProtocolIndicesFrom, buildFrom, PartyCore.withIndex, Party.core, ih]

theorem map_core_orderedInsert (p : Party) (l : List Party) :
    (List.orderedInsert (fun a b => localeLe a.partyId b.partyId) p l).map Party.core =
      List.orderedInsert coreLe p.core (l.map Party.core) := by
  induction l with
  | nil => rfl
  | cons q l ih =>
    by_cases h : localeLe p.partyId q.partyId
    · simp [List.orderedInsert, h, coreLe, Party.core]
    · simp [List.orderedInsert, h, coreLe, Party.core, ih]

theorem map_core_sort (l : List Party) :
    (sortPartiesById l).map Party.core = sortCores (l.map Party.core) := by
  unfold sortPartiesById sortCores
  induction l with
  | nil => rfl
  | cons p l ih => simp [List.insertionSort, map_core_orderedInsert, ih]

theorem mem_buildFrom {p : Party} (i : Nat) (cs : List PartyCore)
    (h : p ∈ buildFrom i cs) :
    ∃ k, ∃ hk : k < cs.length, p = (cs.get ⟨k, hk⟩).withIndex (i + k) := by
  induction cs generalizing i with
  | nil => simp [buildFrom] at h
  | cons c rest ih =>
    simp only [buildFrom] at h
    rcases List.mem_cons.mp h with h1 | h1
    · exact ⟨0, Nat.succ_pos _, by simpa using h1⟩
    · obtain ⟨k, hk, hp⟩ := ih (i + 1) h1
      refine ⟨k + 1, Nat.succ_lt_succ hk, ?_⟩
      rw [hp]
      show (rest.get ⟨k, hk⟩).withIndex (i + 1 + k) =
        (rest.get ⟨k, hk⟩).withIndex (i + (k + 1))
      congr 1
      omega

theorem sorted_strict_countP (cs : List PartyCore) (h : List.Sorted coreLt cs) :
    ∀ k (hk : k < cs.length),
      cs.countP (fun c => decide (coreLt c (cs.get ⟨k, hk⟩))) = k := by
  induction cs with
  | nil => intro k hk; simp at hk
  | cons c rest ih =>
    intro k hk
    have hall : ∀ x ∈ rest, coreLt c x := (List.sorted_cons.mp h).1
    have hrest : List.Sorted coreLt rest := (List.sorted_cons.mp h).2
    cases k with
    | zero =>
      show (c :: rest).countP (fun x => decide (coreLt x c)) = 0
      rw [List.countP_cons]
      have h1 : (decide (coreLt c c)) = false := by
        simp only [decide_eq_false_iff_not, coreLt]
        exact lt_irrefl _
      have h2 : rest.countP (fun x => decide (coreLt x c)) = 0 :=
        List.countP_eq_zero.mpr (fun x hx => by
          simp only [decide_eq_true_eq]
          exact fun hlt => absurd hlt (lt_asymm (hall x hx)))
      rw [h1, h2]
      simp
    | succ k =>
      have hk' : k < rest.length := Nat.lt_of_succ_lt_succ hk
      show (c :: rest).countP
        (fun x => decide (coreLt x (rest.get ⟨k, hk'⟩))) = k + 1
      rw [List.countP_cons]
      have hc : (decide (coreLt c (rest.get ⟨k, hk'⟩))) = true := by
        simp only [decide_eq_true_eq]
        exact hall _ (List.get_mem rest k hk')
      rw [hc, ih hrest k hk']
      simp

theorem registerAll_sorted (hashIdx : String → Nat)
    (regs : List (String × SerializableBigInt)) :
    ∀ (st : CoordinatorState) (sess : KeyGenSession) (cores : List PartyCore),
      st.session = some sess → st.parties = buildFrom 0 cores →
      List.Sorted coreLe cores →
      ∃ st' cores', registerAll hashIdx st regs = .ok st' ∧
        st'.session = some sess ∧ st'.parties = buildFrom 0 cores' ∧
        List.Sorted coreLe cores' ∧
        cores'.Perm (cores ++ regs.map (regCore hashIdx)) := by
  induction regs with
  | nil =>
    intro st sess cores hs hp hsort
    exact ⟨st, cores, rfl, hs, hp, hsort, by simp⟩
  | cons r rest ih =>
    intro st sess cores hs hp hsort
    obtain ⟨pid, pk⟩ := r
    obtain ⟨i, hreg⟩ := registerParty_ok hashIdx st pid pk sess hs
    have hparties :
        assignProtocolIndices (sortPartiesById (st.parties ++
          [⟨pid, pk, hashIdx pid, none⟩])) =
        buildFrom 0 (sortCores (cores ++ [regCore hashIdx (pid, pk)])) := by
      unfold assignProtocolIndices
      rw [assignFrom_eq_buildFrom, map_core_sort]
      congr 1
      rw [List.map_append, hp, buildFrom_map_core]
      rfl
    obtain ⟨st', cores', hrun, hsess', hp', hsort', hperm'⟩ :=
      ih ({ st with parties := assignProtocolIndices (sortPartiesById (st.parties ++
            [⟨pid, pk, hashIdx pid, none⟩])) }) sess
        (sortCores (cores ++ [regCore hashIdx (pid, pk)])) hs hparties
        (List.sorted_insertionSort coreLe _)
    refine ⟨st', cores', ?_, hsess', hp', hsort', ?_⟩
    · unfold registerAll
      rw [hreg]
      exact hrun
    · refine hperm'.trans ?_
      have h1 : (sortCores (cores ++ [regCore hashIdx (pid, pk)])).Perm
          (cores ++ [regCore hashIdx (pid, pk)]) := List.perm_insertionSort _ _
      refine (h1.append_right (rest.map (regCore hashIdx))).trans ?_
      rw [List.append_assoc]
      rfl

/-! C9 -/

/-- C9: registering the same set of distinct party ids in any two arrival orders
produces identical party lists, and after all registrations each party carries the
protocol index equal to the rank of its id in the lexicographic order of all
registered ids (the count of strictly smaller registered ids). -/
theorem registerParty_lex_rank (hashIdx : String → Nat) (st : CoordinatorState)
    (sess : KeyGenSession) (regs1 regs2 : List (String × SerializableBigInt))
    (hs : st.session = some sess) (hp : st.parties = [])
    (hperm : regs1.Perm regs2) (hnd : (regs1.map Prod.fst).Nodup) :
    ∃ st1 st2, registerAll hashIdx st regs1 = .ok st1 ∧
      registerAll hashIdx st regs2 = .ok st2 ∧
      st1.parties = st2.parties ∧
      (st1.parties.map Party.partyId).Perm (regs1.map Prod.fst) ∧
      ∀ p ∈ st1.parties, p.protocolIndex =
        some ((regs1.map Prod.fst).countP
          (fun q => decide (q.data < p.partyId.data))) := by
  obtain ⟨st1, cores1, h1, _, hp1, hsort1, hperm1⟩ :=
    registerAll_sorted hashIdx regs1 st sess [] hs hp List.sorted_nil
  obtain ⟨st2, cores2, h2, _, hp2, hsort2, hperm2⟩ :=
    registerAll_sorted hashIdx regs2 st sess [] hs hp List.sorted_nil
  have hperm1' : cores1.Perm (regs1.map (regCore hashIdx)) := by simpa using hperm1
  have hperm2' : cores2.Perm (regs2.map (regCore hashIdx)) := by simpa using hperm2
  have hcoresperm : cores1.Perm cores2 :=
    hperm1'.trans ((hperm.map (regCore hashIdx)).trans hperm2'.symm)
  have hmapids :
      (regs1.map (regCore hashIdx)).map PartyCore.partyId = regs1.map Prod.fst := by
    rw [List.map_map]; rfl
  have hkeys : (cores1.map PartyCore.partyId).Perm (regs1.map Prod.fst) :=
    hmapids ▸ hperm1'.map PartyCore.partyId
  have hnd1 : (cores1.map PartyCore.partyId).Nodup := hkeys.nodup_iff.mpr hnd
  have hstrict : ∀ cs : List PartyCore, List.Sorted coreLe cs →
      (cs.map PartyCore.partyId).Nodup → List.Sorted coreLt cs := by
    intro cs hsort hndcs
    have hpairne : List.Pairwise (fun a b : PartyCore => a.partyId ≠ b.partyId) cs :=
      List.pairwise_map.mp hndcs
    exact (hsort.and hpairne).imp (fun h =>
      lt_of_le_of_ne h.1 (fun hdata => h.2 (String.ext hdata)))
  have hstrict1 : List.Sorted coreLt cores1 := hstrict cores1 hsort1 hnd1
  have hstrict2 : List.Sorted coreLt cores2 := hstrict cores2 hsort2
    (((hcoresperm.map PartyCore.partyId).nodup_iff).mp hnd1)
  have hcoreseq : cores1 = cores2 := List.eq_of_perm_of_sorted hcoresperm hstrict1 hstrict2
  refine ⟨st1, st2, h1, h2, by rw [hp1, hp2, hcoreseq], ?_, ?_⟩
  · rw [hp1, buildFrom_map_partyId]
    exact hkeys
  · intro p hpmem
    rw [hp1] at hpmem
    obtain ⟨k, hk, hpe⟩ := mem_buildFrom 0 cores1 hpmem
    have hpid : p.partyId = (cores1.get ⟨k, hk⟩).partyId := by rw [hpe]; rfl
    have hidxval : p.protocolIndex = some (0 + k) := by rw [hpe]; rfl
    have hcount := sorted_strict_countP cores1 hstrict1 k hk
    rw [hidxval, hpid]
    have hchain :
        (regs1.map Prod.fst).countP
          (fun q => decide (q.data < (cores1.get ⟨k, hk⟩).partyId.data)) = k := by
      calc (regs1.map Prod.fst).countP
            (fun q => decide (q.data < (cores1.get ⟨k, hk⟩).partyId.data))
          = (regs1.map (regCore hashIdx)).countP
            (fun c => decide (coreLt c (cores1.get ⟨k, hk⟩))) := by
            rw [List.countP_map, List.countP_map]; rfl
        _ = cores1.countP (fun c => decide (coreLt c (cores1.get ⟨k, hk⟩))) :=
            (hperm1'.countP_eq _).symm
        _ = k := hcount
    rw [hchain]
    simp

/-- C9 witness: two registrations of parties b and a arriving in opposite orders
yield identical party lists with indices equal to the lexicographic ranks. -/
theorem registerParty_lex_rank_witness :
    ∃ st1 st2, registerAll (fun _ => 0) demoKeygenState
        [("b", ⟨[2]⟩), ("a", ⟨[1]⟩)] = .ok st1 ∧
      registerAll (fun _ => 0) demoKeygenState
        [("a", ⟨[1]⟩), ("b", ⟨[2]⟩)] = .ok st2 ∧
      st1.parties = st2.parties ∧
      (st1.parties.map Party.partyId).Perm
        ([("b", (⟨[2]⟩ : SerializableBigInt)), ("a", ⟨[1]⟩)].map Prod.fst) ∧
      ∀ p ∈ st1.parties, p.protocolIndex =
        some (([("b", (⟨[2]⟩ : SerializableBigInt)), ("a", ⟨[1]⟩)].map Prod.fst).countP
          (fun q => decide (q.data < p.partyId.data))) :=
  registerParty_lex_rank (fun _ => 0) demoKeygenState ⟨2, 2⟩
    [("b", ⟨[2]⟩), ("a", ⟨[1]⟩)] [("a", ⟨[1]⟩), ("b", ⟨[2]⟩)]
    rfl rfl (by decide) (by decide)

end TssEddsa
